import Mathlib

/-
  Verification of the geometric / level-of-detail core of the HOI4Clone map
  viewer.  The definitions below are a shallow embedding of the Python source
  (src/hoi4clone/core/map.py, country.py, city.py and utils/config.py):
  floating-point values are modelled as rationals, Python `int()` conversion
  as truncation toward zero, and the mutable renderer / manager objects as
  explicit state records with pure transition functions.
-/

namespace HOI4

/-- Window width in pixels (config.py: WINDOW_WIDTH = 1200). -/
def WINDOW_WIDTH : ℚ := 1200

/-- Window height in pixels (config.py: WINDOW_HEIGHT = 800). -/
def WINDOW_HEIGHT : ℚ := 800

/-- Initial zoom factor (config.py: INITIAL_ZOOM = 1.0). -/
def INITIAL_ZOOM : ℚ := 1

/-- Maximal zoom factor (config.py: MAX_ZOOM = 50.0). -/
def MAX_ZOOM : ℚ := 50

/-- Minimal zoom factor (config.py: MIN_ZOOM = 0.3). -/
def MIN_ZOOM : ℚ := 3/10

/-- Python `int()` applied to a float: truncation toward zero. -/
def pytrunc (q : ℚ) : ℤ := if q < 0 then ⌈q⌉ else ⌊q⌋

/-- Truncation toward zero differs from its argument by less than one. -/
lemma abs_pytrunc_sub_lt (q : ℚ) : |(pytrunc q : ℚ) - q| < 1 := by
  unfold pytrunc
  split_ifs with h
  · rw [abs_lt]
    constructor
    · have := Int.le_ceil q
      linarith
    · have := Int.ceil_lt_add_one q
      linarith
  · rw [abs_lt]
    constructor
    · have := Int.sub_one_lt_floor q
      linarith
    · have := Int.floor_le q
      linarith

/-- Truncation toward zero is monotone. -/
lemma pytrunc_mono {a b : ℚ} (h : a ≤ b) : pytrunc a ≤ pytrunc b := by
  unfold pytrunc
  split_ifs with ha hb hb
  · exact Int.ceil_le_ceil h
  · calc ⌈a⌉ ≤ 0 := Int.ceil_le.mpr (by exact_mod_cast le_of_lt ha)
    _ ≤ ⌊b⌋ := Int.floor_nonneg.mpr (not_lt.mp hb)
  · exact absurd (lt_of_le_of_lt h hb) ha
  · exact Int.floor_le_floor h

/-- A geographic point: (longitude, latitude) in degrees, modelled exactly. -/
abbrev GeoPoint := ℚ × ℚ

/-- A country as loaded in country.py: a name, a list of polygon rings
(each a list of (lon, lat) pairs, country.py line 10) and the transient
selection flag (country.py line 17).  The random display color is not part
of any verified claim and is omitted.  The bounding box cached at
construction (country.py lines 20-24) is a pure function of the immutable
ring data and is modelled by the derived fields below. -/
structure Country where
  name : String
  polygons : List (List GeoPoint)
  selected : Bool
deriving DecidableEq

/-- All ring vertices of a country, the analogue of np.vstack(self.polygons)
(country.py line 20). -/
def Country.all_points (c : Country) : List GeoPoint := c.polygons.flatten

/-- Cached bounding-box field min_lon (country.py line 21): the minimum of
the first coordinate over all vertices. -/
def Country.min_lon (c : Country) : ℚ :=
  match c.all_points with
  | [] => 0
  | p :: rest => (rest.map Prod.fst).foldl min p.1

/-- Cached bounding-box field max_lon (country.py line 22). -/
def Country.max_lon (c : Country) : ℚ :=
  match c.all_points with
  | [] => 0
  | p :: rest => (rest.map Prod.fst).foldl max p.1

/-- Cached bounding-box field min_lat (country.py line 23). -/
def Country.min_lat (c : Country) : ℚ :=
  match c.all_points with
  | [] => 0
  | p :: rest => (rest.map Prod.snd).foldl min p.2

/-- Cached bounding-box field max_lat (country.py line 24). -/
def Country.max_lat (c : Country) : ℚ :=
  match c.all_points with
  | [] => 0
  | p :: rest => (rest.map Prod.snd).foldl max p.2

lemma foldl_min_le_init (l : List ℚ) (a : ℚ) : l.foldl min a ≤ a := by
  induction l generalizing a with
  | nil => exact le_refl a
  | cons x xs ih => exact le_trans (ih (min a x)) (min_le_left a x)

lemma foldl_min_le_mem {l : List ℚ} {x : ℚ} (hx : x ∈ l) (a : ℚ) :
    l.foldl min a ≤ x := by
  induction l generalizing a with
  | nil => cases hx
  | cons y ys ih =>
    rcases List.mem_cons.mp hx with h | h
    · subst h
      exact le_trans (foldl_min_le_init ys (min a x)) (min_le_right a x)
    · exact ih h (min a y)

lemma le_foldl_max_init (l : List ℚ) (a : ℚ) : a ≤ l.foldl max a := by
  induction l generalizing a with
  | nil => exact le_refl a
  | cons x xs ih => exact le_trans (le_max_left a x) (ih (max a x))

lemma mem_le_foldl_max {l : List ℚ} {x : ℚ} (hx : x ∈ l) (a : ℚ) :
    x ≤ l.foldl max a := by
  induction l generalizing a with
  | nil => cases hx
  | cons y ys ih =>
    rcases List.mem_cons.mp hx with h | h
    · subst h
      exact le_trans (le_max_right a x) (le_foldl_max_init ys (max a x))
    · exact ih h (max a y)

/-- Every vertex of every ring lies inside the cached bounding box. -/
lemma Country.mem_bbox (c : Country) :
    ∀ p ∈ c.all_points,
      c.min_lon ≤ p.1 ∧ p.1 ≤ c.max_lon ∧ c.min_lat ≤ p.2 ∧ p.2 ≤ c.max_lat := by
  intro p hp
  rcases hap : c.all_points with _ | ⟨q, rest⟩
  · rw [hap] at hp
    cases hp
  · rw [hap] at hp
    unfold Country.min_lon Country.max_lon Country.min_lat Country.max_lat
    rw [hap]
    rcases List.mem_cons.mp hp with h | h
    · subst h
      exact ⟨foldl_min_le_init _ _, le_foldl_max_init _ _,
             foldl_min_le_init _ _, le_foldl_max_init _ _⟩
    · refine ⟨foldl_min_le_mem ?_ _, mem_le_foldl_max ?_ _,
              foldl_min_le_mem ?_ _, mem_le_foldl_max ?_ _⟩
      · exact List.mem_map_of_mem Prod.fst h
      · exact List.mem_map_of_mem Prod.fst h
      · exact List.mem_map_of_mem Prod.snd h
      · exact List.mem_map_of_mem Prod.snd h

/-- Helper for the Python extended slice `l[::s]`: the counter counts down
how many elements remain to be skipped before the next kept element. -/
def sliceAux (s : ℕ) : ℕ → List α → List α
  | _, [] => []
  | 0, x :: xs => x :: sliceAux s (s - 1) xs
  | k + 1, _ :: xs => sliceAux s k xs

/-- The Python extended slice `l[::s]`: keeps indices 0, s, 2s, ... -/
def sliceStep (s : ℕ) (l : List α) : List α := sliceAux s 0 l

lemma sliceAux_length (s : ℕ) (hs : 1 ≤ s) :
    ∀ (l : List α) (k : ℕ), k ≤ s - 1 →
      (sliceAux s k l).length = (l.length + (s - 1) - k) / s := by
  intro l
  induction l with
  | nil =>
    intro k hk
    have hz : (s - 1 - k) / s = 0 := Nat.div_eq_of_lt (by omega)
    simp [sliceAux, hz]
  | cons x xs ih =>
    intro k hk
    cases k with
    | zero =>
      simp only [sliceAux, List.length_cons]
      rw [ih (s - 1) (le_refl _)]
      have h1 : xs.length + (s - 1) - (s - 1) = xs.length := by omega
      have h2 : xs.length + 1 + (s - 1) - 0 = xs.length + s := by omega
      rw [h1, h2, Nat.add_div_right _ (by omega)]
    | succ j =>
      simp only [sliceAux, List.length_cons]
      rw [ih j (by omega)]
      congr 1
      omega

/-- Length of the Python slice `l[::s]` is the ceiling of length / s. -/
lemma sliceStep_length (s : ℕ) (hs : 1 ≤ s) (l : List α) :
    (sliceStep s l).length = (l.length + (s - 1)) / s := by
  have := sliceAux_length s hs l 0 (by omega)
  simpa [sliceStep] using this

lemma sliceAux_get? (s : ℕ) (hs : 1 ≤ s) :
    ∀ (l : List α) (k i : ℕ), k ≤ s - 1 →
      (sliceAux s k l).get? i = l.get? (k + i * s) := by
  intro l
  induction l with
  | nil => intro k i hk; simp [sliceAux]
  | cons x xs ih =>
    intro k i hk
    cases k with
    | zero =>
      cases i with
      | zero => simp [sliceAux]
      | succ i =>
        have hidx : 0 + (i + 1) * s = (s - 1 + i * s) + 1 := by
          have hmul : (i + 1) * s = i * s + s := by ring
          omega
        rw [hidx]
        simp only [sliceAux, List.get?_cons_succ]
        exact ih (s - 1) i (le_refl _)
    | succ j =>
      have hidx : (j + 1) + i * s = (j + i * s) + 1 := by omega
      rw [hidx]
      simp only [sliceAux, List.get?_cons_succ]
      exact ih j i (by omega)

/-- The i-th kept element of `l[::s]` is the element at index i*s of l. -/
lemma sliceStep_get? (s : ℕ) (hs : 1 ≤ s) (l : List α) (i : ℕ) :
    (sliceStep s l).get? i = l.get? (i * s) := by
  have := sliceAux_get? s hs l 0 i (by omega)
  simpa [sliceStep] using this

/-- Stride 1 keeps everything. -/
lemma sliceStep_one (l : List α) : sliceStep 1 l = l := by
  induction l with
  | nil => rfl
  | cons x xs ih => simpa [sliceStep, sliceAux] using ih

/-- The stride chosen by Country.get_polygons for a given zoom
(country.py lines 29-38). -/
def strideOf (zoom : ℚ) : ℕ :=
  if zoom ≤ 1/2 then 16
  else if zoom ≤ 1 then 8
  else if zoom ≤ 2 then 4
  else if zoom ≤ 4 then 2
  else 1

/-- Country.get_polygons (country.py lines 26-38): stride decimation of
every ring, with the stride chosen from the zoom band. -/
def Country.get_polygons (c : Country) (zoom : ℚ) : List (List GeoPoint) :=
  if zoom ≤ 1/2 then c.polygons.map (sliceStep 16)
  else if zoom ≤ 1 then c.polygons.map (sliceStep 8)
  else if zoom ≤ 2 then c.polygons.map (sliceStep 4)
  else if zoom ≤ 4 then c.polygons.map (sliceStep 2)
  else c.polygons

lemma get_polygons_eq_map (c : Country) (zoom : ℚ) :
    c.get_polygons zoom = c.polygons.map (sliceStep (strideOf zoom)) := by
  have hone : List.map (sliceStep 1) c.polygons = c.polygons := by
    rw [funext (sliceStep_one (α := GeoPoint))]
    exact List.map_id' c.polygons
  unfold Country.get_polygons strideOf
  split_ifs <;> first | rfl | exact hone.symm

lemma strideOf_pos (zoom : ℚ) : 1 ≤ strideOf zoom := by
  unfold strideOf
  split_ifs <;> norm_num

lemma strideOf_mem (zoom : ℚ) : strideOf zoom ∈ ([1, 2, 4, 8, 16] : List ℕ) := by
  unfold strideOf
  split_ifs <;> simp

lemma strideOf_antitone {z1 z2 : ℚ} (h : z1 ≤ z2) : strideOf z2 ≤ strideOf z1 := by
  unfold strideOf
  split_ifs <;> first | omega | linarith

/-- Ceiling division count is antitone in the stride, over the strides that
get_polygons can choose. -/
lemma ceil_count_anti (n : ℕ) {s1 s2 : ℕ} (h1 : s1 ∈ ([1, 2, 4, 8, 16] : List ℕ))
    (h2 : s2 ∈ ([1, 2, 4, 8, 16] : List ℕ)) (hle : s2 ≤ s1) :
    (n + (s1 - 1)) / s1 ≤ (n + (s2 - 1)) / s2 := by
  fin_cases h1 <;> fin_cases h2 <;> omega

/-- The edge-crossing test of the ray cast (country.py lines 95-97): the
edge runs from pj (index j) to pi (index i); the horizontal ray at lat
crosses it when the vertices straddle the ray and the intersection lies to
the right of lon. -/
def crossing (pj pi : GeoPoint) (lon lat : ℚ) : Bool :=
  (decide (pi.2 > lat) != decide (pj.2 > lat)) &&
    decide (lon < (pj.1 - pi.1) * (lat - pi.2) / (pj.2 - pi.2) + pi.1)

/-- The inner loop of the ray cast (country.py lines 91-99): walk the
vertices with the previous vertex carried along, toggling the inside flag
at every crossing. -/
def rayCastAux (lon lat : ℚ) : GeoPoint → List GeoPoint → Bool → Bool
  | _, [], inside => inside
  | pj, pi :: rest, inside =>
      rayCastAux lon lat pi rest (if crossing pj pi lon lat then !inside else inside)

/-- Ray cast over one ring: j starts at the last vertex (country.py line 92)
and i walks all vertices in order. -/
def rayCastRing (ring : List GeoPoint) (lon lat : ℚ) : Bool :=
  match ring with
  | [] => false
  | p :: rest => rayCastAux lon lat (rest.getLastD p) (p :: rest) false

/-- The union-of-rings ray cast without the bounding-box gate
(country.py lines 90-104): the point is inside when any ring contains it. -/
def Country.containsPointRaw (c : Country) (lon lat : ℚ) : Bool :=
  c.polygons.any (fun ring => rayCastRing ring lon lat)

/-- Country.contains_point (country.py lines 80-104): O(1) bounding-box
rejection first, then the ray cast over every ring. -/
def Country.contains_point (c : Country) (lon lat : ℚ) : Bool :=
  if lon < c.min_lon ∨ lon > c.max_lon ∨ lat < c.min_lat ∨ lat > c.max_lat then
    false
  else
    c.containsPointRaw lon lat

/-- The edge-crossing test with the division guarded: returns none exactly
when the evaluation would execute the division with a zero denominator.
Mirrors Python evaluation order, where the conjunction short-circuits
before the division is reached. -/
def crossingChecked (pj pi : GeoPoint) (lon lat : ℚ) : Option Bool :=
  if decide (pi.2 > lat) != decide (pj.2 > lat) then
    if pj.2 - pi.2 = 0 then none
    else some (decide (lon < (pj.1 - pi.1) * (lat - pi.2) / (pj.2 - pi.2) + pi.1))
  else
    some false

/-- Division-guarded version of the ray-cast inner loop. -/
def rayCastAuxChecked (lon lat : ℚ) : GeoPoint → List GeoPoint → Bool → Option Bool
  | _, [], inside => some inside
  | pj, pi :: rest, inside =>
      match crossingChecked pj pi lon lat with
      | none => none
      | some b => rayCastAuxChecked lon lat pi rest (if b then !inside else inside)

/-- Division-guarded ray cast over one ring. -/
def rayCastRingChecked (ring : List GeoPoint) (lon lat : ℚ) : Option Bool :=
  match ring with
  | [] => some false
  | p :: rest => rayCastAuxChecked lon lat (rest.getLastD p) (p :: rest) false

/-- Division-guarded sequential scan of the rings, with the early True
return of the source loop. -/
def containsRawChecked (polys : List (List GeoPoint)) (lon lat : ℚ) : Option Bool :=
  match polys with
  | [] => some false
  | r :: rest =>
      match rayCastRingChecked r lon lat with
      | none => none
      | some true => some true
      | some false => containsRawChecked rest lon lat

/-- Division-guarded Country.contains_point. -/
def Country.containsPointChecked (c : Country) (lon lat : ℚ) : Option Bool :=
  if lon < c.min_lon ∨ lon > c.max_lon ∨ lat < c.min_lat ∨ lat > c.max_lat then
    some false
  else
    containsRawChecked c.polygons lon lat

/-- If the two edge endpoints straddle the horizontal ray, the edge is not
horizontal, so the ray-cast division has a nonzero denominator; moreover
the interpolation parameter lies in [0, 1]. -/
lemma straddle_facts {yi yj lat : ℚ}
    (h : (decide (yi > lat) != decide (yj > lat)) = true) :
    yj - yi ≠ 0 ∧ 0 ≤ (lat - yi) / (yj - yi) ∧ (lat - yi) / (yj - yi) ≤ 1 := by
  have hcases : (yi > lat ∧ ¬ yj > lat) ∨ (¬ yi > lat ∧ yj > lat) := by
    by_cases h1 : yi > lat <;> by_cases h2 : yj > lat <;> simp [h1, h2] at h ⊢
  rcases hcases with ⟨h1, h2⟩ | ⟨h1, h2⟩
  · push_neg at h2
    have hd : yj - yi < 0 := by linarith
    refine ⟨by linarith, ?_, ?_⟩
    · rw [div_nonneg_iff]
      right
      constructor <;> linarith
    · rw [div_le_one_iff]
      right
      right
      constructor <;> linarith
  · push_neg at h1
    have hd : 0 < yj - yi := by linarith
    refine ⟨by linarith, ?_, ?_⟩
    · apply div_nonneg (by linarith) (by linarith)
    · rw [div_le_one hd]
      linarith

/-- A convex combination stays between min and max. -/
lemma convex_comb_bounds (a b t : ℚ) (h0 : 0 ≤ t) (h1 : t ≤ 1) :
    min a b ≤ a + (b - a) * t ∧ a + (b - a) * t ≤ max a b := by
  rcases le_total a b with hab | hab
  · rw [min_eq_left hab, max_eq_right hab]
    constructor <;> nlinarith
  · rw [min_eq_right hab, max_eq_left hab]
    constructor <;> nlinarith

/-- When the edge straddles the ray, the ray-edge intersection abscissa
lies between the abscissas of the two endpoints. -/
lemma inter_bounds (pj pi : GeoPoint) (lat : ℚ)
    (h : (decide (pi.2 > lat) != decide (pj.2 > lat)) = true) :
    min pi.1 pj.1 ≤ (pj.1 - pi.1) * (lat - pi.2) / (pj.2 - pi.2) + pi.1 ∧
      (pj.1 - pi.1) * (lat - pi.2) / (pj.2 - pi.2) + pi.1 ≤ max pi.1 pj.1 := by
  obtain ⟨hne, ht0, ht1⟩ := straddle_facts h
  have hrw : (pj.1 - pi.1) * (lat - pi.2) / (pj.2 - pi.2) + pi.1
      = pi.1 + (pj.1 - pi.1) * ((lat - pi.2) / (pj.2 - pi.2)) := by
    rw [mul_div_assoc]
    ring
  rw [hrw]
  exact convex_comb_bounds pi.1 pj.1 _ ht0 ht1


/-- The guarded crossing test never reaches the zero-denominator branch:
it always returns the unguarded result. -/
lemma crossingChecked_eq (pj pi : GeoPoint) (lon lat : ℚ) :
    crossingChecked pj pi lon lat = some (crossing pj pi lon lat) := by
  unfold crossingChecked crossing
  by_cases h : (decide (pi.2 > lat) != decide (pj.2 > lat)) = true
  · have hne : pj.2 - pi.2 ≠ 0 := (straddle_facts h).1
    rw [if_pos h, if_neg hne, h]
    simp
  · have h0 : (decide (pi.2 > lat) != decide (pj.2 > lat)) = false :=
      Bool.not_eq_true _ ▸ (by simpa using h)
    rw [if_neg (by simp [h0]), h0]
    simp

lemma rayCastAuxChecked_eq (lon lat : ℚ) (l : List GeoPoint) :
    ∀ (prev : GeoPoint) (inside : Bool),
      rayCastAuxChecked lon lat prev l inside
        = some (rayCastAux lon lat prev l inside) := by
  induction l with
  | nil => intro prev inside; rfl
  | cons pi rest ih =>
    intro prev inside
    unfold rayCastAuxChecked rayCastAux
    rw [crossingChecked_eq]
    exact ih pi _

lemma rayCastRingChecked_eq (ring : List GeoPoint) (lon lat : ℚ) :
    rayCastRingChecked ring lon lat = some (rayCastRing ring lon lat) := by
  cases ring with
  | nil => rfl
  | cons p rest =>
    unfold rayCastRingChecked rayCastRing
    exact rayCastAuxChecked_eq lon lat (p :: rest) _ _

lemma containsRawChecked_eq (polys : List (List GeoPoint)) (lon lat : ℚ) :
    containsRawChecked polys lon lat
      = some (polys.any (fun ring => rayCastRing ring lon lat)) := by
  induction polys with
  | nil => rfl
  | cons r rest ih =>
    unfold containsRawChecked
    rw [rayCastRingChecked_eq]
    cases h : rayCastRing r lon lat with
    | true => simp [h]
    | false => simp [h, ih]

/-- If no walked edge crosses, the inside flag is returned unchanged. -/
lemma rayCastAux_eq_of_no_crossing (lon lat : ℚ) (l : List GeoPoint) :
    ∀ (prev : GeoPoint) (inside : Bool),
      (∀ pj pi, pj ∈ prev :: l → pi ∈ l → crossing pj pi lon lat = false) →
      rayCastAux lon lat prev l inside = inside := by
  induction l with
  | nil => intro prev inside _; rfl
  | cons x xs ih =>
    intro prev inside h
    unfold rayCastAux
    rw [h prev x (List.mem_cons_self _ _) (List.mem_cons_self _ _)]
    simp only [Bool.false_eq_true, if_false]
    apply ih
    intro pj pi hj hi
    exact h pj pi (List.mem_cons_of_mem prev hj) (List.mem_cons_of_mem x hi)

lemma bne_trans_bool (a b c : Bool) : ((a != b) != (b != c)) = (a != c) := by
  cases a <;> cases b <;> cases c <;> rfl

/-- If every walked edge crosses exactly when its endpoints straddle the
ray, the final flag is the initial flag xor-ed with whether the first and
last carried vertices are on opposite sides of the ray. -/
lemma rayCastAux_parity (lon lat : ℚ) (l : List GeoPoint) :
    ∀ (prev : GeoPoint) (inside : Bool),
      (∀ pj pi, pj ∈ prev :: l → pi ∈ l →
        crossing pj pi lon lat = (decide (pi.2 > lat) != decide (pj.2 > lat))) →
      rayCastAux lon lat prev l inside
        = (inside != (decide (prev.2 > lat) != decide ((l.getLastD prev).2 > lat))) := by
  induction l with
  | nil =>
    intro prev inside _
    simp [rayCastAux, List.getLastD]
  | cons x xs ih =>
    intro prev inside h
    unfold rayCastAux
    rw [h prev x (List.mem_cons_self _ _) (List.mem_cons_self _ _)]
    have hrec := ih x (if (decide (x.2 > lat) != decide (prev.2 > lat)) = true then !inside else inside)
      (by
        intro pj pi hj hi
        exact h pj pi (List.mem_cons_of_mem prev hj) (List.mem_cons_of_mem x hi))
    rw [hrec, List.getLastD_cons]
    have hsplit : (decide (prev.2 > lat) != decide ((xs.getLastD x).2 > lat))
        = ((decide (prev.2 > lat) != decide (x.2 > lat))
            != (decide (x.2 > lat) != decide ((xs.getLastD x).2 > lat))) :=
      (bne_trans_bool _ _ _).symm
    rw [hsplit]
    cases hb : (decide (x.2 > lat) != decide (prev.2 > lat)) with
    | false =>
      have hb2 : (decide (prev.2 > lat) != decide (x.2 > lat)) = false := by
        cases h1 : decide (x.2 > lat) <;> cases h2 : decide (prev.2 > lat) <;>
          simp [h1, h2] at hb ⊢
      rw [hb2]
      simp
    | true =>
      have hb2 : (decide (prev.2 > lat) != decide (x.2 > lat)) = true := by
        cases h1 : decide (x.2 > lat) <;> cases h2 : decide (prev.2 > lat) <;>
          simp [h1, h2] at hb ⊢
      rw [hb2]
      cases inside <;>
        cases h3 : (decide (x.2 > lat) != decide ((xs.getLastD x).2 > lat)) <;>
          simp [h3]


/-- A geographic viewport rectangle (min_lon, max_lon, min_lat, max_lat). -/
abbrev Viewport := ℚ × ℚ × ℚ × ℚ

/-- The mutable state of MapRenderer (map.py lines 10-25): integer pixel
pan offsets, the zoom factor, the cached last viewport and the cached list
of visible countries.  The pygame surface and font resources are rendering
collaborators outside the verified core. -/
structure MapRenderer where
  offset_x : ℤ
  offset_y : ℤ
  zoom : ℚ
  last_viewport : Option Viewport
  visible_countries : List Country

/-- MapRenderer.geo_to_screen (map.py lines 27-31): project a geographic
point to integer pixel coordinates, truncating with int(). -/
def MapRenderer.geo_to_screen (m : MapRenderer) (lon lat : ℚ) : ℤ × ℤ :=
  (pytrunc ((lon + 180) / 360 * WINDOW_WIDTH * m.zoom + (m.offset_x : ℚ)),
   pytrunc ((-lat + 90) / 180 * WINDOW_HEIGHT * m.zoom + (m.offset_y : ℚ)))

/-- MapRenderer.screen_to_geo (map.py lines 33-43): the algebraic inverse
of the projection, computed in exact arithmetic. -/
def MapRenderer.screen_to_geo (m : MapRenderer) (screen_x screen_y : ℚ) : ℚ × ℚ :=
  ((screen_x - (m.offset_x : ℚ)) / (WINDOW_WIDTH * m.zoom) * 360 - 180,
   -((screen_y - (m.offset_y : ℚ)) / (WINDOW_HEIGHT * m.zoom) * 180 - 90))

/-- MapRenderer.adjust_zoom (map.py lines 154-165): capture the geographic
point under the mouse, clamp the new zoom, and when the zoom actually
changed re-anchor the pan offset so that point maps back to the mouse
position, invalidating the viewport cache. -/
def MapRenderer.adjust_zoom (m : MapRenderer) (factor : ℚ) (mouse_x mouse_y : ℤ) : MapRenderer :=
  let old := m.screen_to_geo (mouse_x : ℚ) (mouse_y : ℚ)
  let new_zoom := max MIN_ZOOM (min MAX_ZOOM (m.zoom * factor))
  if new_zoom ≠ m.zoom then
    let m1 : MapRenderer := { m with zoom := new_zoom }
    let p := m1.geo_to_screen old.1 old.2
    { m1 with
        offset_x := m1.offset_x + (mouse_x - p.1),
        offset_y := m1.offset_y + (mouse_y - p.2),
        last_viewport := none }
  else
    m

/-- MapRenderer.pan (map.py lines 167-171). -/
def MapRenderer.pan (m : MapRenderer) (dx dy : ℤ) : MapRenderer :=
  { m with
      offset_x := m.offset_x + dx,
      offset_y := m.offset_y + dy,
      last_viewport := none }

/-- The collection of loaded countries (country.py lines 112-115), in
insertion order of the name-keyed dict.  Selection state is verified
separately through SelectionState below. -/
structure CountryManager where
  countries : List Country

/-- The margin-expanded geographic viewport computed by
update_visible_countries (map.py lines 47-55): the screen corners are
unprojected and a 10 percent margin is added on every side. -/
def MapRenderer.newViewport (m : MapRenderer) : Viewport :=
  let g0 := m.screen_to_geo 0 0
  let g1 := m.screen_to_geo WINDOW_WIDTH WINDOW_HEIGHT
  let margin := (g1.1 - g0.1) * (1/10)
  (g0.1 - margin, g1.1 + margin, g1.2 - margin, g0.2 + margin)

/-- The candidate-set recomputation of update_visible_countries
(map.py lines 61-65): countries whose bounding box intersects the
margin-expanded viewport. -/
def visibleFilter (cm : CountryManager) (v : Viewport) : List Country :=
  cm.countries.filter (fun c =>
    decide (c.max_lon ≥ v.1) && decide (c.min_lon ≤ v.2.1) &&
      decide (c.max_lat ≥ v.2.2.1) && decide (c.min_lat ≤ v.2.2.2))

/-- The cache test of update_visible_countries (map.py lines 59-60):
recompute when there is no cached viewport or any edge moved by more than
one geographic degree. -/
def viewportChanged : Option Viewport → Viewport → Bool
  | none, _ => true
  | some old, nv =>
      decide (|nv.1 - old.1| > 1) || decide (|nv.2.1 - old.2.1| > 1) ||
        decide (|nv.2.2.1 - old.2.2.1| > 1) || decide (|nv.2.2.2 - old.2.2.2| > 1)

/-- MapRenderer.update_visible_countries (map.py lines 45-66). -/
def MapRenderer.update_visible_countries (m : MapRenderer) (cm : CountryManager) : MapRenderer :=
  let nv := m.newViewport
  if viewportChanged m.last_viewport nv then
    { m with visible_countries := visibleFilter cm nv, last_viewport := some nv }
  else
    m

/-- The operations that mutate the renderer state between frames: panning,
zooming (game.py lines 53-57, 64-80) and the per-frame draw call, whose
only effect on this state is update_visible_countries (map.py line 118). -/
inductive MapOp where
  | panOp (dx dy : ℤ)
  | zoomOp (factor : ℚ) (mouse_x mouse_y : ℤ)
  | drawOp
deriving DecidableEq

/-- One step of the renderer state machine. -/
def mapStep (cm : CountryManager) (m : MapRenderer) : MapOp → MapRenderer
  | .panOp dx dy => m.pan dx dy
  | .zoomOp f mx my => m.adjust_zoom f mx my
  | .drawOp => m.update_visible_countries cm

/-- The renderer state after a sequence of operations. -/
def runMap (cm : CountryManager) (m : MapRenderer) (ops : List MapOp) : MapRenderer :=
  ops.foldl (mapStep cm) m

/-- The initial renderer state (map.py lines 12-14, 24-25):
offset (WINDOW_WIDTH // 2, WINDOW_HEIGHT // 2) = (600, 400),
zoom INITIAL_ZOOM, no cached viewport. -/
def initRenderer : MapRenderer :=
  { offset_x := 600, offset_y := 400, zoom := INITIAL_ZOOM,
    last_viewport := none, visible_countries := [] }

/-- The cache invariant: the cached viewport, when present, is exactly the
current viewport and the cached candidate list is the fresh recomputation. -/
def CacheInv (cm : CountryManager) (m : MapRenderer) : Prop :=
  m.last_viewport = none ∨
    (m.last_viewport = some m.newViewport ∧
      m.visible_countries = visibleFilter cm m.newViewport)

lemma viewportChanged_self (v : Viewport) : viewportChanged (some v) v = false := by
  simp [viewportChanged]

lemma newViewport_update (m : MapRenderer) (vis : List Country) (lv : Option Viewport) :
    MapRenderer.newViewport { m with visible_countries := vis, last_viewport := lv }
      = m.newViewport := rfl

lemma cacheInv_step (cm : CountryManager) (m : MapRenderer) (op : MapOp)
    (h : CacheInv cm m) : CacheInv cm (mapStep cm m op) := by
  cases op with
  | panOp dx dy => exact Or.inl rfl
  | zoomOp f mx my =>
    show CacheInv cm (m.adjust_zoom f mx my)
    simp only [MapRenderer.adjust_zoom]
    split_ifs with hz
    · exact Or.inl rfl
    · exact h
  | drawOp =>
    show CacheInv cm (m.update_visible_countries cm)
    simp only [MapRenderer.update_visible_countries]
    split_ifs with hc
    · right
      rw [newViewport_update]
      exact ⟨rfl, rfl⟩
    · exact h

lemma cacheInv_run (cm : CountryManager) (ops : List MapOp) (m : MapRenderer)
    (h : CacheInv cm m) : CacheInv cm (runMap cm m ops) := by
  induction ops generalizing m with
  | nil => exact h
  | cons op rest ih => exact ih _ (cacheInv_step cm m op h)

/-- After an update the candidate list is always the fresh recomputation. -/
lemma update_gives_fresh (cm : CountryManager) (m : MapRenderer) (h : CacheInv cm m) :
    (m.update_visible_countries cm).visible_countries = visibleFilter cm m.newViewport := by
  simp only [MapRenderer.update_visible_countries]
  split_ifs with hc
  · rfl
  · rcases h with h | ⟨h1, h2⟩
    · rw [h] at hc
      simp [viewportChanged] at hc
    · exact h2


/-- A city (city.py lines 7-13): name, position, population and the
owning-country key (the SOV_A3 code used to group cities). -/
structure City where
  name : String
  lon : ℚ
  lat : ℚ
  population : ℕ
  country : String
deriving DecidableEq

/-- The zoom-to-percentage table (city.py lines 29-35), in the ascending
key order produced by sorted(...items()). -/
def percent_cities_by_zoom : List (ℚ × ℚ) :=
  [(3/10, 3/10), (1/2, 1/2), (1, 7/10), (2, 9/10), (4, 1)]

/-- The percentage-of-cities selection loop of get_visible_cities
(city.py lines 89-92): start from the default 30 percent and overwrite
with the entry of every threshold the zoom reaches. -/
def percentToShow (zoom : ℚ) : ℚ :=
  percent_cities_by_zoom.foldl (fun acc tp => if zoom ≥ tp.1 then tp.2 else acc) (3/10)

/-- The state of CityManager (city.py lines 22-35): the flat city list,
the per-country grouping in dict insertion order, and the country
population table, in which only countries with a valid positive
population have an entry (city.py lines 41-45). -/
structure CityManager where
  cities : List City
  cities_by_country : List (String × List City)
  country_populations : String → Option ℕ

/-- The viewport-membership test of get_visible_cities
(city.py lines 107-108). -/
def cityInViewport (min_lon max_lon min_lat max_lat : ℚ) (c : City) : Bool :=
  decide (min_lon ≤ c.lon) && decide (c.lon ≤ max_lon) &&
    decide (min_lat ≤ c.lat) && decide (c.lat ≤ max_lat)

/-- The per-country collection loop of get_visible_cities (city.py lines
102-110): scan the (pre-sorted) city list, appending cities that lie in
the viewport, stopping once the budget is exhausted. -/
def collectCities (inView : City → Bool) : List City → ℕ → List City
  | [], _ => []
  | c :: rest, n =>
      if n = 0 then []
      else if inView c then c :: collectCities inView rest (n - 1)
      else collectCities inView rest n

/-- The collection loop returns the first n in-viewport cities in order. -/
lemma collectCities_eq_take_filter (inView : City → Bool) :
    ∀ (l : List City) (n : ℕ),
      collectCities inView l n = (l.filter inView).take n := by
  intro l
  induction l with
  | nil => intro n; simp [collectCities]
  | cons c rest ih =>
    intro n
    cases n with
    | zero => simp [collectCities]
    | succ k =>
      unfold collectCities
      rw [if_neg (Nat.succ_ne_zero k)]
      by_cases hv : inView c = true
      · rw [if_pos hv, List.filter_cons_of_pos hv]
        simp [ih k]
      · rw [if_neg hv, List.filter_cons_of_neg (by simpa using hv)]
        exact ih (k + 1)

/-- CityManager.get_visible_cities (city.py lines 83-112): per country,
show the top cities in the viewport, with a quota of
max(2, int(max(3, int(pop / 1000000)) * percent_to_show)). -/
def CityManager.get_visible_cities (m : CityManager)
    (min_lon max_lon min_lat max_lat zoom : ℚ) : List City :=
  let percent_to_show := percentToShow zoom
  (m.cities_by_country.map (fun g =>
    let country_pop := (m.country_populations g.1).getD 0
    let num_cities := max 3 (pytrunc ((country_pop : ℚ) / 1000000)).toNat
    let num_to_show := max 2 (pytrunc ((num_cities : ℚ) * percent_to_show)).toNat
    collectCities (cityInViewport min_lon max_lon min_lat max_lat) g.2 num_to_show)).flatten

/-- The zoom-to-percentage step function is monotone in the zoom. -/
lemma percentToShow_mono {z1 z2 : ℚ} (h : z1 ≤ z2) :
    percentToShow z1 ≤ percentToShow z2 := by
  simp only [percentToShow, percent_cities_by_zoom, List.foldl]
  split_ifs <;> linarith

/-- The per-country quota is monotone in the shown percentage. -/
lemma quota_mono (pop : ℕ) {p1 p2 : ℚ} (h : p1 ≤ p2) :
    max 2 (pytrunc ((max 3 (pytrunc ((pop : ℚ) / 1000000)).toNat : ℕ) * p1)).toNat
      ≤ max 2 (pytrunc ((max 3 (pytrunc ((pop : ℚ) / 1000000)).toNat : ℕ) * p2)).toNat := by
  apply max_le_max (le_refl 2)
  apply Int.toNat_le_toNat
  apply pytrunc_mono
  apply mul_le_mul_of_nonneg_left h
  exact_mod_cast Nat.zero_le _

/-- The selection-flag state of the loaded countries: one flag per country
object identity, plus the manager reference CountryManager.selected_country
(country.py lines 112-115).  This embeds the object graph of the Python
CountryManager, where the selected flags live on the Country objects and
select_country mutates them through the stored reference. -/
structure SelectionState (I : Type) where
  selected : I → Bool
  selected_country : Option I

/-- CountryManager.select_country (country.py lines 149-155): clear the
flag of the previously selected country, store the new reference, and set
its flag when it is not None. -/
def SelectionState.select_country {I : Type} [DecidableEq I]
    (s : SelectionState I) (c : Option I) : SelectionState I :=
  let cleared : I → Bool := fun i => if s.selected_country = some i then false else s.selected i
  match c with
  | some b => { selected := fun i => if i = b then true else cleared i, selected_country := some b }
  | none => { selected := cleared, selected_country := none }

/-- The freshly loaded selection state: no flag set, nothing selected
(country.py lines 17, 115, 120-121). -/
def initialSelection (I : Type) : SelectionState I :=
  { selected := fun _ => false, selected_country := none }

/-- Run a sequence of select_country calls from the loaded state. -/
def runSelect {I : Type} [DecidableEq I] (ops : List (Option I)) : SelectionState I :=
  ops.foldl SelectionState.select_country (initialSelection I)

/-- A set selection flag always belongs to the tracked selected country. -/
def SelInv {I : Type} (s : SelectionState I) : Prop :=
  ∀ i, s.selected i = true → s.selected_country = some i

lemma selInv_select {I : Type} [DecidableEq I] (s : SelectionState I)
    (h : SelInv s) (c : Option I) : SelInv (s.select_country c) := by
  cases c with
  | none =>
    intro i hi
    simp only [SelectionState.select_country] at hi
    by_cases hsel : s.selected_country = some i
    · rw [if_pos hsel] at hi
      cases hi
    · rw [if_neg hsel] at hi
      exact absurd (h i hi) hsel
  | some b =>
    intro i hi
    simp only [SelectionState.select_country] at hi ⊢
    by_cases hib : i = b
    · rw [hib]
    · rw [if_neg hib] at hi
      by_cases hsel : s.selected_country = some i
      · rw [if_pos hsel] at hi
        cases hi
      · rw [if_neg hsel] at hi
        exact absurd (h i hi) hsel

lemma selInv_run {I : Type} [DecidableEq I] (ops : List (Option I)) :
    SelInv (runSelect ops) := by
  have main : ∀ (l : List (Option I)) (s : SelectionState I), SelInv s →
      SelInv (l.foldl SelectionState.select_country s) := by
    intro l
    induction l with
    | nil => intro s hs; exact hs
    | cons op rest ih => intro s hs; exact ih _ (selInv_select s hs op)
  apply main
  intro i hi
  cases hi

/-- After clearing the selection no flag remains set. -/
lemma select_none_clears {I : Type} [DecidableEq I] (s : SelectionState I)
    (h : SelInv s) : ∀ i, (s.select_country none).selected i = false := by
  intro i
  simp only [SelectionState.select_country]
  by_cases hsel : s.selected_country = some i
  · rw [if_pos hsel]
  · rw [if_neg hsel]
    cases hv : s.selected i with
    | false => rfl
    | true => exact absurd (h i hv) hsel


/-- Scaled truncation error: replacing u by int(u) inside the linear
screen-to-geo map changes the result by less than one pixel's worth. -/
lemma trunc_err_lt (u c D k : ℚ) (hD : 0 < D) (hk : 0 < k) :
    |((pytrunc u : ℚ) - c) / D * k - (u - c) / D * k| < k / D := by
  have heq : ((pytrunc u : ℚ) - c) / D * k - (u - c) / D * k
      = ((pytrunc u : ℚ) - u) * (k / D) := by
    ring
  rw [heq, abs_mul, abs_of_pos (div_pos hk hD)]
  calc |(pytrunc u : ℚ) - u| * (k / D) < 1 * (k / D) :=
        mul_lt_mul_of_pos_right (abs_pytrunc_sub_lt u) (div_pos hk hD)
  _ = k / D := one_mul _

lemma window_width_zoom_pos (m : MapRenderer) (hz : 0 < m.zoom) :
    0 < WINDOW_WIDTH * m.zoom := by
  have hW : (0:ℚ) < WINDOW_WIDTH := by norm_num [WINDOW_WIDTH]
  exact mul_pos hW hz

lemma window_height_zoom_pos (m : MapRenderer) (hz : 0 < m.zoom) :
    0 < WINDOW_HEIGHT * m.zoom := by
  have hH : (0:ℚ) < WINDOW_HEIGHT := by norm_num [WINDOW_HEIGHT]
  exact mul_pos hH hz

lemma screen_geo_screen_x (m : MapRenderer) (hz : 0 < m.zoom) (x y : ℚ) :
    |(((m.geo_to_screen (m.screen_to_geo x y).1 (m.screen_to_geo x y).2).1 : ℤ) : ℚ) - x| < 1 := by
  have hne : WINDOW_WIDTH * m.zoom ≠ 0 := ne_of_gt (window_width_zoom_pos m hz)
  have hx : ((m.screen_to_geo x y).1 + 180) / 360 * WINDOW_WIDTH * m.zoom + (m.offset_x : ℚ) = x := by
    simp only [MapRenderer.screen_to_geo]
    field_simp
    ring
  simp only [MapRenderer.geo_to_screen]
  rw [hx]
  exact abs_pytrunc_sub_lt x

lemma screen_geo_screen_y (m : MapRenderer) (hz : 0 < m.zoom) (x y : ℚ) :
    |(((m.geo_to_screen (m.screen_to_geo x y).1 (m.screen_to_geo x y).2).2 : ℤ) : ℚ) - y| < 1 := by
  have hne : WINDOW_HEIGHT * m.zoom ≠ 0 := ne_of_gt (window_height_zoom_pos m hz)
  have hy : (-(m.screen_to_geo x y).2 + 90) / 180 * WINDOW_HEIGHT * m.zoom + (m.offset_y : ℚ) = y := by
    simp only [MapRenderer.screen_to_geo]
    field_simp
    ring
  simp only [MapRenderer.geo_to_screen]
  rw [hy]
  exact abs_pytrunc_sub_lt y

lemma geo_screen_geo_lon (m : MapRenderer) (hz : 0 < m.zoom) (lon lat : ℚ) :
    |(m.screen_to_geo (((m.geo_to_screen lon lat).1 : ℤ) : ℚ) (((m.geo_to_screen lon lat).2 : ℤ) : ℚ)).1 - lon|
      < 360 / (WINDOW_WIDTH * m.zoom) := by
  have hD := window_width_zoom_pos m hz
  have hne : WINDOW_WIDTH * m.zoom ≠ 0 := ne_of_gt hD
  have hlon : ((lon + 180) / 360 * WINDOW_WIDTH * m.zoom + (m.offset_x : ℚ) - (m.offset_x : ℚ))
      / (WINDOW_WIDTH * m.zoom) * 360 - 180 = lon := by
    field_simp
    ring
  have key := trunc_err_lt ((lon + 180) / 360 * WINDOW_WIDTH * m.zoom + (m.offset_x : ℚ))
    (m.offset_x : ℚ) (WINDOW_WIDTH * m.zoom) 360 hD (by norm_num)
  simp only [MapRenderer.geo_to_screen, MapRenderer.screen_to_geo]
  have hre : ((pytrunc ((lon + 180) / 360 * WINDOW_WIDTH * m.zoom + (m.offset_x : ℚ)) : ℚ)
        - (m.offset_x : ℚ)) / (WINDOW_WIDTH * m.zoom) * 360 - 180 - lon
      = ((pytrunc ((lon + 180) / 360 * WINDOW_WIDTH * m.zoom + (m.offset_x : ℚ)) : ℚ)
          - (m.offset_x : ℚ)) / (WINDOW_WIDTH * m.zoom) * 360
        - ((lon + 180) / 360 * WINDOW_WIDTH * m.zoom + (m.offset_x : ℚ) - (m.offset_x : ℚ))
            / (WINDOW_WIDTH * m.zoom) * 360 := by
    linarith [hlon]
  rw [hre]
  exact key

lemma geo_screen_geo_lat (m : MapRenderer) (hz : 0 < m.zoom) (lon lat : ℚ) :
    |(m.screen_to_geo (((m.geo_to_screen lon lat).1 : ℤ) : ℚ) (((m.geo_to_screen lon lat).2 : ℤ) : ℚ)).2 - lat|
      < 180 / (WINDOW_HEIGHT * m.zoom) := by
  have hD := window_height_zoom_pos m hz
  have hne : WINDOW_HEIGHT * m.zoom ≠ 0 := ne_of_gt hD
  have hlat : -(((-lat + 90) / 180 * WINDOW_HEIGHT * m.zoom + (m.offset_y : ℚ) - (m.offset_y : ℚ))
      / (WINDOW_HEIGHT * m.zoom) * 180 - 90) = lat := by
    field_simp
    ring
  have key := trunc_err_lt ((-lat + 90) / 180 * WINDOW_HEIGHT * m.zoom + (m.offset_y : ℚ))
    (m.offset_y : ℚ) (WINDOW_HEIGHT * m.zoom) 180 hD (by norm_num)
  simp only [MapRenderer.geo_to_screen, MapRenderer.screen_to_geo]
  have hre : -(((pytrunc ((-lat + 90) / 180 * WINDOW_HEIGHT * m.zoom + (m.offset_y : ℚ)) : ℚ)
        - (m.offset_y : ℚ)) / (WINDOW_HEIGHT * m.zoom) * 180 - 90) - lat
      = -(((pytrunc ((-lat + 90) / 180 * WINDOW_HEIGHT * m.zoom + (m.offset_y : ℚ)) : ℚ)
            - (m.offset_y : ℚ)) / (WINDOW_HEIGHT * m.zoom) * 180
          - ((-lat + 90) / 180 * WINDOW_HEIGHT * m.zoom + (m.offset_y : ℚ) - (m.offset_y : ℚ))
              / (WINDOW_HEIGHT * m.zoom) * 180) := by
    linarith [hlat]
  rw [hre, abs_neg]
  exact key


/-- A concrete renderer state used to instantiate theorems: the initial
state of map.py (offsets 600, 400 and zoom 1) with no cached viewport. -/
def rTest : MapRenderer :=
  { offset_x := 600, offset_y := 400, zoom := 1,
    last_viewport := none, visible_countries := [] }

/-- C1 (amended): zoom anchoring up to pixel truncation.  When the clamped
zoom differs from the prior zoom, the geographic point under the anchor
after adjust_zoom differs from the one before by less than the geographic
size of one pixel at the new zoom — 360/(WINDOW_WIDTH*zoom') degrees of
longitude and 180/(WINDOW_HEIGHT*zoom') degrees of latitude — because
adjust_zoom re-anchors through geo_to_screen, which truncates to integer
pixels.  The 1e-6 tolerance of the original claim fails (see the
counterexample theorem). -/
theorem zoom_anchoring_within_pixel (m : MapRenderer) (f : ℚ) (mx my : ℤ)
    (hz : 0 < m.zoom)
    (hchange : max MIN_ZOOM (min MAX_ZOOM (m.zoom * f)) ≠ m.zoom) :
    |((m.adjust_zoom f mx my).screen_to_geo (mx : ℚ) (my : ℚ)).1
        - (m.screen_to_geo (mx : ℚ) (my : ℚ)).1|
      < 360 / (WINDOW_WIDTH * (m.adjust_zoom f mx my).zoom) ∧
    |((m.adjust_zoom f mx my).screen_to_geo (mx : ℚ) (my : ℚ)).2
        - (m.screen_to_geo (mx : ℚ) (my : ℚ)).2|
      < 180 / (WINDOW_HEIGHT * (m.adjust_zoom f mx my).zoom) := by
  set z' := max MIN_ZOOM (min MAX_ZOOM (m.zoom * f)) with hz'def
  have hz'pos : 0 < z' := lt_of_lt_of_le (by norm_num [MIN_ZOOM]) (le_max_left _ _)
  set L := (m.screen_to_geo (mx : ℚ) (my : ℚ)).1 with hLdef
  set La := (m.screen_to_geo (mx : ℚ) (my : ℚ)).2 with hLadef
  have hzoom : (m.adjust_zoom f mx my).zoom = z' := by
    simp only [MapRenderer.adjust_zoom]
    rw [if_pos hchange]
  have hox : (m.adjust_zoom f mx my).offset_x
      = m.offset_x + (mx - pytrunc ((L + 180) / 360 * WINDOW_WIDTH * z' + (m.offset_x : ℚ))) := by
    simp only [MapRenderer.adjust_zoom, MapRenderer.geo_to_screen]
    rw [if_pos hchange]
  have hoy : (m.adjust_zoom f mx my).offset_y
      = m.offset_y + (my - pytrunc ((-La + 90) / 180 * WINDOW_HEIGHT * z' + (m.offset_y : ℚ))) := by
    simp only [MapRenderer.adjust_zoom, MapRenderer.geo_to_screen]
    rw [if_pos hchange]
  have hDx : 0 < WINDOW_WIDTH * z' := by
    have : (0:ℚ) < WINDOW_WIDTH := by norm_num [WINDOW_WIDTH]
    exact mul_pos this hz'pos
  have hDy : 0 < WINDOW_HEIGHT * z' := by
    have : (0:ℚ) < WINDOW_HEIGHT := by norm_num [WINDOW_HEIGHT]
    exact mul_pos this hz'pos
  have hDxne : WINDOW_WIDTH * z' ≠ 0 := ne_of_gt hDx
  have hDyne : WINDOW_HEIGHT * z' ≠ 0 := ne_of_gt hDy
  constructor
  · have hnum : (mx : ℚ) - ((m.adjust_zoom f mx my).offset_x : ℚ)
        = (pytrunc ((L + 180) / 360 * WINDOW_WIDTH * z' + (m.offset_x : ℚ)) : ℚ) - (m.offset_x : ℚ) := by
      rw [hox]
      push_cast
      ring
    have hLid : ((L + 180) / 360 * WINDOW_WIDTH * z' + (m.offset_x : ℚ) - (m.offset_x : ℚ))
        / (WINDOW_WIDTH * z') * 360 - 180 = L := by
      field_simp
      ring
    have key := trunc_err_lt ((L + 180) / 360 * WINDOW_WIDTH * z' + (m.offset_x : ℚ))
      (m.offset_x : ℚ) (WINDOW_WIDTH * z') 360 hDx (by norm_num)
    simp only [MapRenderer.screen_to_geo, hzoom, hnum]
    have hre : ((pytrunc ((L + 180) / 360 * WINDOW_WIDTH * z' + (m.offset_x : ℚ)) : ℚ)
          - (m.offset_x : ℚ)) / (WINDOW_WIDTH * z') * 360 - 180 - L
        = ((pytrunc ((L + 180) / 360 * WINDOW_WIDTH * z' + (m.offset_x : ℚ)) : ℚ)
            - (m.offset_x : ℚ)) / (WINDOW_WIDTH * z') * 360
          - ((L + 180) / 360 * WINDOW_WIDTH * z' + (m.offset_x : ℚ) - (m.offset_x : ℚ))
              / (WINDOW_WIDTH * z') * 360 := by
      linarith [hLid]
    rw [hre]
    exact key
  · have hnum : (my : ℚ) - ((m.adjust_zoom f mx my).offset_y : ℚ)
        = (pytrunc ((-La + 90) / 180 * WINDOW_HEIGHT * z' + (m.offset_y : ℚ)) : ℚ) - (m.offset_y : ℚ) := by
      rw [hoy]
      push_cast
      ring
    have hLaid : -(((-La + 90) / 180 * WINDOW_HEIGHT * z' + (m.offset_y : ℚ) - (m.offset_y : ℚ))
        / (WINDOW_HEIGHT * z') * 180 - 90) = La := by
      field_simp
      ring
    have key := trunc_err_lt ((-La + 90) / 180 * WINDOW_HEIGHT * z' + (m.offset_y : ℚ))
      (m.offset_y : ℚ) (WINDOW_HEIGHT * z') 180 hDy (by norm_num)
    simp only [MapRenderer.screen_to_geo, hzoom, hnum]
    have hre : -(((pytrunc ((-La + 90) / 180 * WINDOW_HEIGHT * z' + (m.offset_y : ℚ)) : ℚ)
          - (m.offset_y : ℚ)) / (WINDOW_HEIGHT * z') * 180 - 90) - La
        = -(((pytrunc ((-La + 90) / 180 * WINDOW_HEIGHT * z' + (m.offset_y : ℚ)) : ℚ)
              - (m.offset_y : ℚ)) / (WINDOW_HEIGHT * z') * 180
            - ((-La + 90) / 180 * WINDOW_HEIGHT * z' + (m.offset_y : ℚ) - (m.offset_y : ℚ))
                / (WINDOW_HEIGHT * z') * 180) := by
      linarith [hLaid]
    rw [hre, abs_neg]
    exact key


/-- A ring whose vertices all lie in a box produces no ray-cast hit for a
query point outside that box: above/below the box no edge straddles the
ray; right of the box every intersection lies left of the point; left of
the box every straddling edge crosses, and a closed walk straddles an even
number of times. -/
lemma rayCastRing_false_of_outside (ring : List GeoPoint)
    (lon lat mnlon mxlon mnlat mxlat : ℚ)
    (hb : ∀ p ∈ ring, mnlon ≤ p.1 ∧ p.1 ≤ mxlon ∧ mnlat ≤ p.2 ∧ p.2 ≤ mxlat)
    (h : lon < mnlon ∨ lon > mxlon ∨ lat < mnlat ∨ lat > mxlat) :
    rayCastRing ring lon lat = false := by
  cases ring with
  | nil => rfl
  | cons p rest =>
    have hmem : ∀ q ∈ (rest.getLastD p) :: p :: rest, q ∈ p :: rest := by
      intro q hq
      rcases List.mem_cons.mp hq with hq | hq
      · rw [hq]
        exact List.getLastD_mem_cons rest p
      · exact hq
    rcases h with h | h | h | h
    · -- lon strictly left of the box: parity argument
      show rayCastAux lon lat (rest.getLastD p) (p :: rest) false = false
      rw [rayCastAux_parity lon lat (p :: rest) (rest.getLastD p) false ?hcross]
      · rw [List.getLastD_cons]
        simp
      case hcross =>
        intro pj pi hj hi
        have hbj := hb pj (hmem pj hj)
        have hbi := hb pi hi
        unfold crossing
        by_cases hstr : (decide (pi.2 > lat) != decide (pj.2 > lat)) = true
        · have hmin := (inter_bounds pj pi lat hstr).1
          have hlt : lon < (pj.1 - pi.1) * (lat - pi.2) / (pj.2 - pi.2) + pi.1 := by
            have h1 : mnlon ≤ min pi.1 pj.1 := le_min hbi.1 hbj.1
            linarith [hmin]
          simp [hstr, hlt]
        · simp only [Bool.not_eq_true] at hstr
          simp [hstr]
    · -- lon strictly right of the box: no crossing at all
      show rayCastAux lon lat (rest.getLastD p) (p :: rest) false = false
      apply rayCastAux_eq_of_no_crossing
      intro pj pi hj hi
      have hbj := hb pj (hmem pj hj)
      have hbi := hb pi hi
      unfold crossing
      by_cases hstr : (decide (pi.2 > lat) != decide (pj.2 > lat)) = true
      · have hmax := (inter_bounds pj pi lat hstr).2
        have hge : ¬ lon < (pj.1 - pi.1) * (lat - pi.2) / (pj.2 - pi.2) + pi.1 := by
          have h1 : max pi.1 pj.1 ≤ mxlon := max_le hbi.2.1 hbj.2.1
          push_neg
          linarith [hmax]
        simp [hstr, hge]
      · simp only [Bool.not_eq_true] at hstr
        simp [hstr]
    · -- lat strictly below the box: every vertex is above the ray
      show rayCastAux lon lat (rest.getLastD p) (p :: rest) false = false
      apply rayCastAux_eq_of_no_crossing
      intro pj pi hj hi
      have hbj := hb pj (hmem pj hj)
      have hbi := hb pi hi
      have hj2 : decide (pj.2 > lat) = true := by
        simp only [decide_eq_true_eq]
        linarith [hbj.2.2.1]
      have hi2 : decide (pi.2 > lat) = true := by
        simp only [decide_eq_true_eq]
        linarith [hbi.2.2.1]
      unfold crossing
      rw [hj2, hi2]
      simp
    · -- lat strictly above the box: every vertex is below the ray
      show rayCastAux lon lat (rest.getLastD p) (p :: rest) false = false
      apply rayCastAux_eq_of_no_crossing
      intro pj pi hj hi
      have hbj := hb pj (hmem pj hj)
      have hbi := hb pi hi
      have hj2 : decide (pj.2 > lat) = false := by
        simp only [decide_eq_false_iff_not]
        push_neg
        linarith [hbj.2.2.2]
      have hi2 : decide (pi.2 > lat) = false := by
        simp only [decide_eq_false_iff_not]
        push_neg
        linarith [hbi.2.2.2]
      unfold crossing
      rw [hj2, hi2]
      simp

/-- Outside the cached bounding box the full union-of-rings ray cast is
already false, so the O(1) early rejection cannot change the answer. -/
lemma raw_false_of_outside (c : Country) (lon lat : ℚ)
    (h : lon < c.min_lon ∨ lon > c.max_lon ∨ lat < c.min_lat ∨ lat > c.max_lat) :
    c.containsPointRaw lon lat = false := by
  unfold Country.containsPointRaw
  rw [List.any_eq_false]
  intro ring hring
  have hb : ∀ p ∈ ring,
      c.min_lon ≤ p.1 ∧ p.1 ≤ c.max_lon ∧ c.min_lat ≤ p.2 ∧ p.2 ≤ c.max_lat := by
    intro p hp
    exact c.mem_bbox p (List.mem_flatten.mpr ⟨ring, hring, hp⟩)
  rw [rayCastRing_false_of_outside ring lon lat c.min_lon c.max_lon c.min_lat c.max_lat hb h]
  simp


/-- Witness for the amended zoom-anchoring theorem: the hypotheses hold at
the initial renderer state with factor 3/2 and anchor (1, 0), and the
one-pixel bound follows from the theorem. -/
theorem zoom_anchoring_within_pixel_witness :
    (0 < rTest.zoom ∧ max MIN_ZOOM (min MAX_ZOOM (rTest.zoom * (3/2))) ≠ rTest.zoom) ∧
    (|((rTest.adjust_zoom (3/2) 1 0).screen_to_geo ((1 : ℤ) : ℚ) ((0 : ℤ) : ℚ)).1
        - (rTest.screen_to_geo ((1 : ℤ) : ℚ) ((0 : ℤ) : ℚ)).1|
      < 360 / (WINDOW_WIDTH * (rTest.adjust_zoom (3/2) 1 0).zoom) ∧
     |((rTest.adjust_zoom (3/2) 1 0).screen_to_geo ((1 : ℤ) : ℚ) ((0 : ℤ) : ℚ)).2
        - (rTest.screen_to_geo ((1 : ℤ) : ℚ) ((0 : ℤ) : ℚ)).2|
      < 180 / (WINDOW_HEIGHT * (rTest.adjust_zoom (3/2) 1 0).zoom)) :=
  ⟨⟨by norm_num [rTest], by norm_num [rTest, MIN_ZOOM, MAX_ZOOM]⟩,
   zoom_anchoring_within_pixel rTest (3/2) 1 0 (by norm_num [rTest])
     (by norm_num [rTest, MIN_ZOOM, MAX_ZOOM])⟩

/-- Counterexample to C1 as stated: at the initial state, zooming by 3/2
anchored at screen point (1, 0) does not saturate the clamp, yet the
longitude under the anchor moves by exactly 1/10 of a degree, far more
than the claimed 1e-6 tolerance.  The drift comes from geo_to_screen
truncating the re-anchoring position to integer pixels. -/
theorem zoom_anchoring_epsilon_cex :
    max MIN_ZOOM (min MAX_ZOOM (rTest.zoom * (3/2))) ≠ rTest.zoom ∧
    |((rTest.adjust_zoom (3/2) 1 0).screen_to_geo ((1 : ℤ) : ℚ) ((0 : ℤ) : ℚ)).1
        - (rTest.screen_to_geo ((1 : ℤ) : ℚ) ((0 : ℤ) : ℚ)).1| = 1/10 ∧
    (1/1000000 : ℚ) < 1/10 := by
  refine ⟨by norm_num [rTest, MIN_ZOOM, MAX_ZOOM], ?_, by norm_num⟩
  have hceil : ⌈(-(597/2) : ℚ)⌉ = -298 := by
    rw [Int.ceil_eq_iff]
    norm_num
  have hceil2 : ⌈(-200 : ℚ)⌉ = -200 := by
    rw [Int.ceil_eq_iff]
    norm_num
  norm_num [MapRenderer.adjust_zoom, MapRenderer.screen_to_geo, MapRenderer.geo_to_screen,
    rTest, pytrunc, WINDOW_WIDTH, WINDOW_HEIGHT, MIN_ZOOM, MAX_ZOOM, hceil, hceil2, abs]

/-- C2: coordinate round trip.  Screen to geo and back recovers the screen
point to strictly within one pixel in each coordinate (screen_to_geo is
exact and geo_to_screen merely truncates), and geo to screen and back
recovers the geographic point to within the geographic size of one pixel,
360/(WINDOW_WIDTH*zoom) degrees of longitude and
180/(WINDOW_HEIGHT*zoom) degrees of latitude — exactly the error
introduced by truncating screen coordinates to integer pixels. -/
theorem coordinate_round_trip (m : MapRenderer) (hz : 0 < m.zoom) (x y lon lat : ℚ) :
    (|(((m.geo_to_screen (m.screen_to_geo x y).1 (m.screen_to_geo x y).2).1 : ℤ) : ℚ) - x| < 1 ∧
     |(((m.geo_to_screen (m.screen_to_geo x y).1 (m.screen_to_geo x y).2).2 : ℤ) : ℚ) - y| < 1) ∧
    (|(m.screen_to_geo (((m.geo_to_screen lon lat).1 : ℤ) : ℚ)
          (((m.geo_to_screen lon lat).2 : ℤ) : ℚ)).1 - lon|
        < 360 / (WINDOW_WIDTH * m.zoom) ∧
     |(m.screen_to_geo (((m.geo_to_screen lon lat).1 : ℤ) : ℚ)
          (((m.geo_to_screen lon lat).2 : ℤ) : ℚ)).2 - lat|
        < 180 / (WINDOW_HEIGHT * m.zoom)) :=
  ⟨⟨screen_geo_screen_x m hz x y, screen_geo_screen_y m hz x y⟩,
   geo_screen_geo_lon m hz lon lat, geo_screen_geo_lat m hz lon lat⟩

/-- Witness for the round-trip theorem at the initial renderer state with
screen point (5, 7) and geographic point (10, 20). -/
theorem coordinate_round_trip_witness :
    0 < rTest.zoom ∧
    ((|(((rTest.geo_to_screen (rTest.screen_to_geo 5 7).1 (rTest.screen_to_geo 5 7).2).1 : ℤ) : ℚ) - 5| < 1 ∧
      |(((rTest.geo_to_screen (rTest.screen_to_geo 5 7).1 (rTest.screen_to_geo 5 7).2).2 : ℤ) : ℚ) - 7| < 1) ∧
     (|(rTest.screen_to_geo (((rTest.geo_to_screen 10 20).1 : ℤ) : ℚ)
           (((rTest.geo_to_screen 10 20).2 : ℤ) : ℚ)).1 - 10|
         < 360 / (WINDOW_WIDTH * rTest.zoom) ∧
      |(rTest.screen_to_geo (((rTest.geo_to_screen 10 20).1 : ℤ) : ℚ)
           (((rTest.geo_to_screen 10 20).2 : ℤ) : ℚ)).2 - 20|
         < 180 / (WINDOW_HEIGHT * rTest.zoom))) :=
  ⟨by norm_num [rTest], coordinate_round_trip rTest (by norm_num [rTest]) 5 7 10 20⟩


/-- A concrete triangle country used to instantiate theorems: one ring of
exactly three vertices. -/
def countryT3 : Country :=
  { name := "Tri", polygons := [[(0, 0), (10, 0), (0, 10)]], selected := false }

/-- C3 (amended): stride decimation in get_polygons keeps every s-th point
starting at points[0], with the stride s drawn from {1, 2, 4, 8, 16} by
zoom band, and the decimated ring has exactly ceil(n/s) = (n+s-1)/s
points.  There is no three-point floor: ceil(n/s) can drop below 3 for a
ring that started with at least 3 points (see the counterexample). -/
theorem lod_stride_decimation (c : Country) (zoom : ℚ) :
    c.get_polygons zoom = c.polygons.map (sliceStep (strideOf zoom)) ∧
    strideOf zoom ∈ ([1, 2, 4, 8, 16] : List ℕ) ∧
    ∀ ring ∈ c.polygons,
      (sliceStep (strideOf zoom) ring).length
          = (ring.length + (strideOf zoom - 1)) / strideOf zoom ∧
        ∀ i, (sliceStep (strideOf zoom) ring).get? i = ring.get? (i * strideOf zoom) := by
  refine ⟨get_polygons_eq_map c zoom, strideOf_mem zoom, ?_⟩
  intro ring hring
  exact ⟨sliceStep_length _ (strideOf_pos zoom) ring,
         fun i => sliceStep_get? _ (strideOf_pos zoom) ring i⟩

/-- Witness for the amended stride-decimation theorem on the concrete
triangle at zoom 1/2 (stride band 16). -/
theorem lod_stride_decimation_witness :
    ([((0:ℚ), (0:ℚ)), (10, 0), (0, 10)] ∈ countryT3.polygons) ∧
    ((sliceStep (strideOf (1/2)) [((0:ℚ), (0:ℚ)), (10, 0), (0, 10)]).length
        = (([((0:ℚ), (0:ℚ)), (10, 0), (0, 10)] : List GeoPoint).length + (strideOf (1/2) - 1))
            / strideOf (1/2) ∧
      ∀ i, (sliceStep (strideOf (1/2)) [((0:ℚ), (0:ℚ)), (10, 0), (0, 10)]).get? i
          = ([((0:ℚ), (0:ℚ)), (10, 0), (0, 10)] : List GeoPoint).get? (i * strideOf (1/2))) :=
  ⟨by decide, (lod_stride_decimation countryT3 (1/2)).2.2 _ (by decide)⟩

/-- Counterexample to the three-point floor of C3: the triangle ring has 3
points, but at zoom 1/2 the stride-16 decimation leaves a single point. -/
theorem lod_min_points_cex :
    countryT3.polygons.map List.length = [3] ∧
    (countryT3.get_polygons (1/2)).map List.length = [1] := by
  constructor
  · rfl
  · have hgp : countryT3.get_polygons (1/2) = countryT3.polygons.map (sliceStep 16) := by
      unfold Country.get_polygons
      rw [if_pos (by norm_num)]
    rw [hgp]
    rfl

/-- C4: viewport-cache transparency.  From the initial renderer state,
after any sequence of pan, zoom and draw operations, the candidate list
that the next draw call renders (update_visible_countries followed by
drawing visible_countries, map.py lines 112-122) is exactly the list a
cache-free implementation would compute: the countries whose bounding box
intersects the current margin-expanded viewport.  The cache can never
serve a stale viewport because pan and adjust_zoom reset it to None. -/
theorem viewport_cache_transparency (cm : CountryManager) (ops : List MapOp) :
    ((runMap cm initRenderer ops).update_visible_countries cm).visible_countries
      = visibleFilter cm (runMap cm initRenderer ops).newViewport := by
  apply update_gives_fresh
  apply cacheInv_run
  exact Or.inl rfl

/-- Selecting b leaves the flag of a different country i as the cleared
flag of the previous state. -/
lemma select_some_flag_other {I : Type} [DecidableEq I] (s : SelectionState I)
    (b i : I) (h : i ≠ b) :
    (s.select_country (some b)).selected i
      = (if s.selected_country = some i then false else s.selected i) := by
  simp [SelectionState.select_country, h]

/-- C5: selection exclusivity.  From a loaded CountryManager with no
selection, after any sequence of select_country calls at most one country
has its selected flag set; selecting B after A leaves A cleared and B set;
and selecting None clears every flag. -/
theorem selection_exclusivity {I : Type} [DecidableEq I]
    (ops : List (Option I)) (A B : I) (hAB : A ≠ B) :
    (∀ i j, (runSelect ops).selected i = true → (runSelect ops).selected j = true → i = j) ∧
    ((runSelect (ops ++ [some A, some B])).selected A = false ∧
      (runSelect (ops ++ [some A, some B])).selected B = true) ∧
    (∀ i, (runSelect (ops ++ [none])).selected i = false) := by
  refine ⟨?_, ⟨?_, ?_⟩, ?_⟩
  · intro i j hi hj
    have h1 := selInv_run ops i hi
    have h2 := selInv_run ops j hj
    rw [h1] at h2
    exact Option.some_injective I h2
  · have happ : runSelect (ops ++ [some A, some B])
        = ((runSelect ops).select_country (some A)).select_country (some B) := by
      unfold runSelect
      rw [List.foldl_append]
      rfl
    rw [happ]
    rw [select_some_flag_other ((runSelect ops).select_country (some A)) B A hAB]
    rw [if_pos
      (show ((runSelect ops).select_country (some A)).selected_country = some A from rfl)]
  · have happ : runSelect (ops ++ [some A, some B])
        = ((runSelect ops).select_country (some A)).select_country (some B) := by
      unfold runSelect
      rw [List.foldl_append]
      rfl
    rw [happ]
    simp [SelectionState.select_country]
  · intro i
    have happ : runSelect (ops ++ [none])
        = (runSelect ops).select_country none := by
      unfold runSelect
      rw [List.foldl_append]
      rfl
    rw [happ]
    exact select_none_clears (runSelect ops) (selInv_run ops) i

/-- Witness for selection exclusivity over the two-element identity type:
selecting false then true from the empty history leaves only true set. -/
theorem selection_exclusivity_witness :
    ((false : Bool) ≠ true) ∧
    ((runSelect [some false, some true]).selected false = false ∧
      (runSelect [some false, some true]).selected true = true) :=
  ⟨by decide,
   (selection_exclusivity ([] : List (Option Bool)) false true (by decide)).2.1⟩


/-- C6: city-visibility monotonicity.  For a fixed viewport and fixed
loaded city data, the number of cities returned by get_visible_cities is
non-decreasing in the zoom: the shown percentage is a monotone step
function of zoom, every per-country quota is monotone in that percentage,
and each country contributes its first quota-many in-viewport cities. -/
theorem city_visibility_monotone (m : CityManager) (a b d e : ℚ)
    (z1 z2 : ℚ) (h : z1 ≤ z2) :
    (m.get_visible_cities a b d e z1).length ≤ (m.get_visible_cities a b d e z2).length := by
  simp only [CityManager.get_visible_cities]
  rw [List.length_flatten, List.length_flatten, List.map_map, List.map_map]
  apply List.sum_le_sum
  intro g hg
  simp only [Function.comp_apply]
  rw [collectCities_eq_take_filter, collectCities_eq_take_filter,
    List.length_take, List.length_take]
  exact min_le_min (quota_mono _ (percentToShow_mono h)) (le_refl _)

/-- A concrete city whose owning-country key has no entry in the loaded
population table. -/
def cityA : City :=
  { name := "A", lon := 0, lat := 0, population := 500000, country := "XYZ" }

/-- A concrete CityManager holding only cityA, with an empty population
table, so the owner key XYZ is unresolved. -/
def mgrA : CityManager :=
  { cities := [cityA], cities_by_country := [("XYZ", [cityA])],
    country_populations := fun _ => none }

/-- Witness for city-visibility monotonicity on the concrete manager at
zooms 1 and 3. -/
theorem city_visibility_monotone_witness :
    ((1 : ℚ) ≤ 3) ∧
    (mgrA.get_visible_cities (-10) 10 (-10) 10 1).length
      ≤ (mgrA.get_visible_cities (-10) 10 (-10) 10 3).length :=
  ⟨by norm_num, city_visibility_monotone mgrA (-10) 10 (-10) 10 1 3 (by norm_num)⟩

/-- C7: LOD monotonicity.  For a fixed country, ring by ring, the number
of points in the decimated ring returned by get_polygons is non-decreasing
as zoom increases across [MIN_ZOOM, MAX_ZOOM]: the stride is antitone in
zoom and the kept-point count ceil(n/s) is antitone in the stride. -/
theorem lod_count_monotone (c : Country) (z1 z2 : ℚ)
    (hmin : MIN_ZOOM ≤ z1) (h12 : z1 ≤ z2) (hmax : z2 ≤ MAX_ZOOM) :
    List.Forall₂ (fun r1 r2 => r1.length ≤ r2.length)
      (c.get_polygons z1) (c.get_polygons z2) := by
  rw [get_polygons_eq_map, get_polygons_eq_map]
  have hs := strideOf_antitone h12
  have main : ∀ l : List (List GeoPoint),
      List.Forall₂ (fun r1 r2 => r1.length ≤ r2.length)
        (l.map (sliceStep (strideOf z1))) (l.map (sliceStep (strideOf z2))) := by
    intro l
    induction l with
    | nil => exact List.Forall₂.nil
    | cons r t ih =>
      refine List.Forall₂.cons ?_ ih
      rw [sliceStep_length _ (strideOf_pos z1), sliceStep_length _ (strideOf_pos z2)]
      exact ceil_count_anti r.length (strideOf_mem z1) (strideOf_mem z2) hs
  exact main c.polygons

/-- Witness for LOD monotonicity on the concrete triangle between zoom 1/2
and zoom 5. -/
theorem lod_count_monotone_witness :
    (MIN_ZOOM ≤ (1/2 : ℚ) ∧ (1/2 : ℚ) ≤ 5 ∧ (5 : ℚ) ≤ MAX_ZOOM) ∧
    List.Forall₂ (fun r1 r2 => r1.length ≤ r2.length)
      (countryT3.get_polygons (1/2)) (countryT3.get_polygons 5) :=
  ⟨⟨by norm_num [MIN_ZOOM], by norm_num, by norm_num [MAX_ZOOM]⟩,
   lod_count_monotone countryT3 (1/2) 5 (by norm_num [MIN_ZOOM]) (by norm_num)
     (by norm_num [MAX_ZOOM])⟩

/-- An element of the first m entries is an element of the first n entries
when m is at most n. -/
lemma mem_take_of_le {α : Type} {x : α} {l : List α} {m n : ℕ}
    (hmn : m ≤ n) (hx : x ∈ l.take m) : x ∈ l.take n := by
  have heq : l.take m = (l.take n).take m := by
    rw [List.take_take, min_eq_left hmn]
  rw [heq] at hx
  exact List.take_subset _ _ hx

/-- C8 (amended): a city whose owning-region key has no entry in the
loaded population table is retained and is NOT excluded by
get_visible_cities: its group's population defaults to 0, giving the group
a quota of at least two cities, so any city among the first two in-viewport
cities of the group is returned at every zoom. -/
theorem unresolved_owner_included (m : CityManager) (a b d e zoom : ℚ)
    (cKey : String) (cs : List City)
    (hmem : (cKey, cs) ∈ m.cities_by_country)
    (hpop : m.country_populations cKey = none)
    (city : City) (hc : city ∈ (cs.filter (cityInViewport a b d e)).take 2) :
    city ∈ m.get_visible_cities a b d e zoom := by
  simp only [CityManager.get_visible_cities]
  rw [List.mem_flatten]
  refine ⟨_, List.mem_map_of_mem _ hmem, ?_⟩
  dsimp only
  rw [collectCities_eq_take_filter]
  exact mem_take_of_le (le_max_left _ _) hc

/-- Witness for the amended unresolved-owner theorem: the single city with
the unresolved key XYZ is returned. -/
theorem unresolved_owner_included_witness :
    ((("XYZ", [cityA]) ∈ mgrA.cities_by_country ∧
       mgrA.country_populations "XYZ" = none ∧
       cityA ∈ ([cityA].filter (cityInViewport (-10) 10 (-10) 10)).take 2)) ∧
    cityA ∈ mgrA.get_visible_cities (-10) 10 (-10) 10 1 :=
  ⟨⟨by decide, rfl, by
      have hin : cityInViewport (-10) 10 (-10) 10 cityA = true := by
        simp [cityInViewport, cityA]
      simp [List.filter, hin]⟩,
   unresolved_owner_included mgrA (-10) 10 (-10) 10 1 "XYZ" [cityA] (by decide) rfl cityA
     (by
      have hin : cityInViewport (-10) 10 (-10) 10 cityA = true := by
        simp [cityInViewport, cityA]
      simp [List.filter, hin])⟩

/-- Counterexample to C8 as stated: for the concrete manager whose only
city has the unresolved owner key XYZ, get_visible_cities at zoom 1 with a
viewport containing the city still returns it. -/
theorem unresolved_owner_cex :
    mgrA.country_populations "XYZ" = none ∧
    mgrA.get_visible_cities (-10) 10 (-10) 10 1 = [cityA] := by
  refine ⟨rfl, ?_⟩
  have hflt : [cityA].filter (cityInViewport (-10) 10 (-10) 10) = [cityA] := by
    have hin : cityInViewport (-10) 10 (-10) 10 cityA = true := by
      simp [cityInViewport, cityA]
    simp [List.filter, hin]
  simp only [CityManager.get_visible_cities, mgrA]
  simp only [List.map, List.flatten, List.append_nil]
  rw [collectCities_eq_take_filter, hflt]
  exact List.take_of_length_le (le_trans (by norm_num) (le_max_left _ _))

/-- C9: the ray cast never divides by zero.  The division-guarded
evaluation of contains_point, which returns none exactly when a division
with a zero denominator would be executed, always returns some boolean —
on every country, every point, hence in particular on degenerate rings
with fewer than 3 points or zero-length edges: the crossing test's
straddle conjunct fails on horizontal and zero-length edges before the
division is reached. -/
theorem contains_point_division_safe (c : Country) (lon lat : ℚ) :
    c.containsPointChecked lon lat = some (c.contains_point lon lat) := by
  unfold Country.containsPointChecked Country.contains_point
  split_ifs with h
  · rfl
  · rw [containsRawChecked_eq]
    rfl

/-- C10: bounding-box rejection is sound.  Every vertex of every ring lies
in the cached bounding box, and contains_point with the O(1) early-False
branch agrees with the plain union-of-rings ray cast at every point. -/
theorem bbox_rejection_sound (c : Country) :
    (∀ p ∈ c.all_points,
      c.min_lon ≤ p.1 ∧ p.1 ≤ c.max_lon ∧ c.min_lat ≤ p.2 ∧ p.2 ≤ c.max_lat) ∧
    ∀ lon lat, c.contains_point lon lat = c.containsPointRaw lon lat := by
  refine ⟨c.mem_bbox, ?_⟩
  intro lon lat
  unfold Country.contains_point
  split_ifs with h
  · exact (raw_false_of_outside c lon lat h).symm
  · rfl

/-- Witness for bounding-box soundness on the concrete triangle, at the
vertex (0, 0) and the far-outside query point (100, 100). -/
theorem bbox_rejection_sound_witness :
    ((((0 : ℚ), (0 : ℚ)) ∈ countryT3.all_points) ∧
      (countryT3.min_lon ≤ ((0 : ℚ), (0 : ℚ)).1 ∧
        ((0 : ℚ), (0 : ℚ)).1 ≤ countryT3.max_lon ∧
        countryT3.min_lat ≤ ((0 : ℚ), (0 : ℚ)).2 ∧
        ((0 : ℚ), (0 : ℚ)).2 ≤ countryT3.max_lat)) ∧
    countryT3.contains_point 100 100 = countryT3.containsPointRaw 100 100 :=
  ⟨⟨by decide, (bbox_rejection_sound countryT3).1 ((0 : ℚ), (0 : ℚ)) (by decide)⟩,
   (bbox_rejection_sound countryT3).2 100 100⟩

end HOI4
